import Mathlib

/-!
Verification development for the tempo-strike rhythm-game timing and
collision engine (src/components/GameScene.tsx, src/components/Note.tsx).

The per-frame update loop of GameScene.tsx is embedded shallowly:
all numeric quantities are rationals, the mutable refs (notesState,
activeNotesRef, nextNoteIndexRef, currentTime) become an explicit
GameState record, and the three host callbacks (onNoteHit, onNoteMiss,
onSongEnd) become an emitted event list.

The files `../constants` and `../types` imported by GameScene.tsx are not
part of the sources; the constants PLAYER_Z, SPAWN_Z, MISS_Z, NOTE_SPEED
and the lookup tables LANE_X_POSITIONS / LAYER_Y_POSITIONS are therefore
modelled from the spec as an explicit configuration record (spec section 9
enumerates exactly this set of constants).  All thresholds that appear as
literals inside GameScene.tsx (the collision window 2.0 / 1.5, the
distance radius 1.2, the minimum swing speed 0.5, the angle gate 0.1 and
the grading thresholds 0.5 / 1.0 and 0.5 / 0.2) are hard-coded here, as
they are in the source.
-/

namespace TempoStrike

/-- Which saber a note belongs to (the `type` field, TS values
`'left' | 'right'`). -/
inductive HandType where
  | left
  | right
deriving DecidableEq, Repr

/-- Modelled from the spec: the `CutDirection` enum lives in the missing
`../types` module.  The spec only requires a wildcard value meaning "any
direction is acceptable" plus discrete directional values, which we index
abstractly by a natural number. -/
inductive CutDirection where
  | any
  | dir (d : ℕ)
deriving DecidableEq, Repr

/-- Hit grades, ordered BAD < GOOD < PERFECT (spec section 3). -/
inductive HitAccuracy where
  | bad
  | good
  | perfect
deriving DecidableEq, Repr

/-- Modelled from the spec: the `GameStatus` enum lives in the missing
`../types` module; spec section 6 lists not-started / playing / paused /
ended. -/
inductive GameStatus where
  | notStarted
  | playing
  | paused
  | ended
deriving DecidableEq, Repr

/-- A 3D vector with rational coordinates (stands for THREE.Vector3). -/
structure Vec3 where
  x : ℚ
  y : ℚ
  z : ℚ
deriving DecidableEq, Repr

def Vec3.sub (a b : Vec3) : Vec3 := ⟨a.x - b.x, a.y - b.y, a.z - b.z⟩

/-- Squared Euclidean norm.  The source compares `distanceTo` and
`length()` (square roots) against positive literals; we embed each such
comparison as the equivalent comparison of squares, which keeps every
definition inside ℚ. -/
def Vec3.norm2 (a : Vec3) : ℚ := a.x * a.x + a.y * a.y + a.z * a.z

/-- One chart note together with its mutable runtime fields
(GameScene.tsx stores these on the NoteData objects themselves). -/
structure NoteData where
  id : ℕ
  time : ℚ
  lineIndex : ℕ
  lineLayer : ℕ
  type : HandType
  cutDirection : CutDirection
  hit : Bool := false
  missed : Bool := false
  hitTime : Option ℚ := none
  accuracy : Option HitAccuracy := none
deriving DecidableEq, Repr

/-- Modelled from the spec: the engine configuration constants imported
from the missing `../constants` module (spec section 9: spawn distance,
player-plane depth, note speed, miss threshold, plus the static
lane/layer coordinate tables of spec section 4.2). -/
structure Consts where
  playerZ : ℚ
  spawnZ : ℚ
  missZ : ℚ
  noteSpeed : ℚ
  laneX : List ℚ
  layerY : List ℚ

/-- The per-frame hand tracking snapshot (`handPositionsRef.current`).
`left` / `right` are nullable positions.  `leftDirScore d` /
`rightDirScore d` are modelled from the spec: they stand for the
normalized dot product `handVel.normalize().dot(DIRECTION_VECTORS[d])`
computed at lines 168-171 of GameScene.tsx — the DIRECTION_VECTORS table
lives in the missing `../constants` module and the normalisation is a
square root, so the per-frame directional score of each hand is supplied
as an abstract rational-valued function of the direction index. -/
structure HandsFrame where
  left : Option Vec3
  right : Option Vec3
  leftVelocity : Vec3
  rightVelocity : Vec3
  leftDirScore : ℕ → ℚ
  rightDirScore : ℕ → ℚ

/-- The gameplay state held in GameScene's refs and React state:
`notes` is notesState, `active` is activeNotesRef (stored as indices into
`notes`, modelling the shared mutable note objects), `nextNoteIndex` is
nextNoteIndexRef, `currentTime` mirrors the setCurrentTime state. -/
structure GameState where
  notes : List NoteData
  active : List ℕ
  nextNoteIndex : ℕ
  currentTime : ℚ
deriving DecidableEq, Repr

/-- The three host callbacks of the event-reporting surface. -/
inductive GameEvent where
  | noteHit (id : ℕ) (acc : HitAccuracy)
  | noteMiss (id : ℕ)
  | songEnd
deriving DecidableEq, Repr

/-- What the frame handler reads at the start of a frame: the status
prop, whether `audioRef.current` is non-null, the audio clock time and
ended flag, and the hand snapshot. -/
structure FrameInput where
  gameStatus : GameStatus
  audioPresent : Bool
  time : ℚ
  ended : Bool
  hands : HandsFrame

/-- Line 110: `spawnAheadTime = Math.abs(SPAWN_Z - PLAYER_Z) / NOTE_SPEED`. -/
def spawnAheadTime (C : Consts) : ℚ := |C.spawnZ - C.playerZ| / C.noteSpeed

/-- Lines 130-131: the note's current depth,
`currentZ = PLAYER_Z - (note.time - time) * NOTE_SPEED`. -/
def projZ (C : Consts) (noteTime t : ℚ) : ℚ :=
  C.playerZ - (noteTime - t) * C.noteSpeed

/-- Line 143: the collision window gate,
`currentZ > PLAYER_Z - 2.0 && currentZ < PLAYER_Z + 1.5`. -/
def inWindow (C : Consts) (z : ℚ) : Bool :=
  decide (C.playerZ - 2 < z) && decide (z < C.playerZ + 3/2)

/-- Lines 148-152: the note's 3D position
`(LANE_X_POSITIONS[note.lineIndex], LAYER_Y_POSITIONS[note.lineLayer], currentZ)`.
The source indexes both tables without a bounds check; the embedding
makes that partiality explicit with an Option. -/
def notePosition (C : Consts) (n : NoteData) (z : ℚ) : Option Vec3 :=
  match C.laneX[n.lineIndex]?, C.layerY[n.lineLayer]? with
  | some x, some y => some ⟨x, y, z⟩
  | _, _ => none

/-- Note.tsx lines 182-188: the renderer computes the same unchecked
lookup `[LANE_X_POSITIONS[data.lineIndex], LAYER_Y_POSITIONS[data.lineLayer], zPos]`. -/
def renderPosition (C : Consts) (n : NoteData) (zPos : ℚ) : Option (ℚ × ℚ × ℚ) :=
  match C.laneX[n.lineIndex]?, C.layerY[n.lineLayer]? with
  | some x, some y => some (x, y, zPos)
  | _, _ => none

/-- Lines 180-193: the accuracy grading.
`distanceToPerfect = Math.abs(currentZ - PLAYER_Z)`;
PERFECT if `distanceToPerfect < 0.5 && angleScore > 0.5`,
else GOOD if `distanceToPerfect < 1.0 && angleScore > 0.2`,
else BAD. -/
def grade (distanceToPerfect angleScore : ℚ) : HitAccuracy :=
  if distanceToPerfect < 1/2 ∧ angleScore > 1/2 then .perfect
  else if distanceToPerfect < 1 ∧ angleScore > 1/5 then .good
  else .bad

/-- Line 144: `note.type === 'left' ? hands.left : hands.right`. -/
def handPosOf (H : HandsFrame) (ht : HandType) : Option Vec3 :=
  match ht with
  | .left => H.left
  | .right => H.right

/-- Line 145: `note.type === 'left' ? hands.leftVelocity : hands.rightVelocity`. -/
def handVelOf (H : HandsFrame) (ht : HandType) : Vec3 :=
  match ht with
  | .left => H.leftVelocity
  | .right => H.rightVelocity

/-- Lines 167-174: the angle score — 1.0 when the note accepts any
direction, otherwise the normalized dot product of the matching hand's
velocity with the required direction vector (supplied per-frame as
`leftDirScore` / `rightDirScore`, see HandsFrame). -/
def angleScoreOf (H : HandsFrame) (ht : HandType) (cd : CutDirection) : ℚ :=
  match cd with
  | .any => 1
  | .dir d =>
    match ht with
    | .left => H.leftDirScore d
    | .right => H.rightDirScore d

/-- The three ways one iteration of the collision loop can treat one
note: leave it untouched (`continue` / falling through a gate), resolve
it as missed, or resolve it as hit with a grade. -/
inductive Outcome where
  | skip
  | missOut
  | hitOut (acc : HitAccuracy)
deriving DecidableEq, Repr

/-- Lines 127-201: the per-note body of the collision loop, as a pure
decision function.  `none` marks the one place where the source indexes
a lane/layer table out of range (undefined coordinates in TS).
The comparisons `distanceTo < 1.2` and `length() < 0.5` are embedded as
the equivalent squared comparisons (both sides are non-negative). -/
def evalNote (C : Consts) (H : HandsFrame) (t : ℚ) (note : NoteData) : Option Outcome :=
  if note.hit || note.missed then some .skip
  else if projZ C note.time t > C.missZ then some .missOut
  else if inWindow C (projZ C note.time t) then
    match handPosOf H note.type with
    | none => some .skip
    | some hp =>
      match notePosition C note (projZ C note.time t) with
      | none => none
      | some np =>
        if (Vec3.sub hp np).norm2 < (6/5) * (6/5) then
          if (handVelOf H note.type).norm2 < (1/2) * (1/2) then some .skip
          else if angleScoreOf H note.type note.cutDirection > 1/10 then
            some (.hitOut (grade |projZ C note.time t - C.playerZ|
              (angleScoreOf H note.type note.cutDirection)))
          else some .skip
        else some .skip
  else some .skip

/-- Line 135: `note.missed = true`. -/
def markMissed (n : NoteData) : NoteData := { n with missed := true }

/-- Lines 195-197: `note.hit = true; note.hitTime = time; note.accuracy = accuracy`. -/
def markHit (n : NoteData) (t : ℚ) (acc : HitAccuracy) : NoteData :=
  { n with hit := true, hitTime := some t, accuracy := some acc }

/-- Lines 112-120, the body of the spawn while-loop
`while (nextNoteIndexRef.current < notesState.length)`.  The first
argument list is the not-yet-visited chart suffix
`notesState.slice(idx)`, and `idx` is the absolute cursor
(nextNoteIndexRef), so the loop guard `idx < notesState.length` becomes
the non-emptiness of the suffix.  Each due note is pushed onto the
active list and the cursor advances; the loop stops at the first note
not yet due or at the end of the chart. -/
def spawnRec (sat t : ℚ) : List NoteData → List ℕ → ℕ → List ℕ × ℕ
  | [], active, idx => (active, idx)
  | nextNote :: rest, active, idx =>
    if nextNote.time - sat ≤ t then
      spawnRec sat t rest (active ++ [idx]) (idx + 1)
    else (active, idx)

/-- The spawn loop as called with the full chart and the persistent
cursor. -/
def spawnLoop (sat t : ℚ) (notes : List NoteData) (active : List ℕ) (idx : ℕ) :
    List ℕ × ℕ :=
  spawnRec sat t (notes.drop idx) active idx

/-- Lines 125-205: the collision loop, iterating the active list in
reverse index order (`for (let i = length - 1; i >= 0; i--)`), so that
the `splice(i, 1)` removals never disturb not-yet-visited positions.
The counter argument is the exclusive upper bound on positions still to
visit.  An out-of-range table lookup (`evalNote = none`) propagates NaN
coordinates in the source, so every comparison on them is false and the
note is skipped. -/
def collideLoop (C : Consts) (H : HandsFrame) (t : ℚ) :
    ℕ → List NoteData → List ℕ → List NoteData × List ℕ × List GameEvent
  | 0, notes, active => (notes, active, [])
  | i + 1, notes, active =>
    match active[i]? with
    | none => collideLoop C H t i notes active
    | some j =>
      match notes[j]? with
      | none => collideLoop C H t i notes active
      | some note =>
        match evalNote C H t note with
        | none => collideLoop C H t i notes active
        | some .skip => collideLoop C H t i notes active
        | some .missOut =>
          let r := collideLoop C H t i (notes.set j (markMissed note)) (active.eraseIdx i)
          (r.1, r.2.1, GameEvent.noteMiss note.id :: r.2.2)
        | some (.hitOut acc) =>
          let r := collideLoop C H t i (notes.set j (markHit note t acc)) (active.eraseIdx i)
          (r.1, r.2.1, GameEvent.noteHit note.id acc :: r.2.2)

/-- Lines 63-206: the whole per-frame update.  The beat-pulse and
camera-shake sections (lines 64-95) touch only light intensities, camera
position and the shake ref — presentation state outside GameState — so
they have no counterpart here.  Line 97 returns unless the status is
playing and the audio element exists; line 101 records the clock time;
lines 103-106 report song end and return; then the spawn loop and the
collision loop run. -/
def update (C : Consts) (inp : FrameInput) (s : GameState) :
    GameState × List GameEvent :=
  if inp.gameStatus ≠ GameStatus.playing ∨ inp.audioPresent = false then (s, [])
  else
    let time := inp.time
    let s1 : GameState := { s with currentTime := time }
    if inp.ended then (s1, [GameEvent.songEnd])
    else
      let sp := spawnLoop (spawnAheadTime C) time s1.notes s1.active s1.nextNoteIndex
      let r := collideLoop C inp.hands time sp.1.length s1.notes sp.1
      ({ notes := r.1, active := r.2.1, nextNoteIndex := sp.2, currentTime := time }, r.2.2)

/-- Session start: the chart is installed with every note pending
(modelled from the spec, section 3: notes begin neither hit nor missed;
the chart constructor is outside the sources). -/
def resetNote (n : NoteData) : NoteData :=
  { n with hit := false, missed := false, hitTime := none, accuracy := none }

def initState (chart : List NoteData) : GameState :=
  { notes := chart.map resetNote
    active := []
    nextNoteIndex := 0
    currentTime := 0 }


namespace Fixtures

/-- Sample configuration used by witnesses and counterexamples. -/
def sampleConsts : Consts :=
  { playerZ := 0, spawnZ := -20, missZ := 2, noteSpeed := 1
    laneX := [-3/2, -1/2, 1/2, 3/2]
    layerY := [4/5, 7/5, 2] }

/-- Hand snapshot with no tracking and zero velocity. -/
def idleHands : HandsFrame :=
  { left := none, right := none
    leftVelocity := ⟨0, 0, 0⟩, rightVelocity := ⟨0, 0, 0⟩
    leftDirScore := fun _ => 0, rightDirScore := fun _ => 0 }

/-- A left-hand UP-style note two seconds into the song. -/
def sampleNote : NoteData :=
  { id := 7, time := 2, lineIndex := 1, lineLayer := 0
    type := .left, cutDirection := .dir 0 }

/-- A frame on which the audio clock still runs. -/
def playingInput : FrameInput :=
  { gameStatus := .playing, audioPresent := true, time := 5, ended := false
    hands := idleHands }

/-- A frame observed while paused. -/
def pausedInput : FrameInput :=
  { gameStatus := .paused, audioPresent := true, time := 5, ended := false
    hands := idleHands }

/-- A frame on which the audio element reports `ended`. -/
def endedInput : FrameInput :=
  { gameStatus := .playing, audioPresent := true, time := 3, ended := true
    hands := idleHands }

end Fixtures

open Fixtures

/-- C7: while the game status is not playing, the update step leaves the
whole gameplay state (every note field, the ActiveSet, the spawn cursor,
even the recorded clock time) untouched and emits no event; running it
again changes nothing either, so suspension is an idempotent no-op.  The
beat-pulse and camera-shake blocks of lines 64-95 touch only lights,
camera and the shake ref, none of which is gameplay state. -/
theorem update_suspended_noop (C : Consts) (inp : FrameInput) (s : GameState)
    (h : inp.gameStatus ≠ GameStatus.playing) :
    update C inp s = (s, []) ∧ update C inp (update C inp s).1 = (s, []) := by
  have h1 : update C inp s = (s, []) := by
    unfold update
    rw [if_pos (Or.inl h)]
  exact ⟨h1, by rw [h1]; exact h1⟩

theorem update_suspended_noop_witness :
    pausedInput.gameStatus ≠ GameStatus.playing ∧
    (update sampleConsts pausedInput (initState [sampleNote]) = (initState [sampleNote], []) ∧
     update sampleConsts pausedInput
        (update sampleConsts pausedInput (initState [sampleNote])).1 = (initState [sampleNote], [])) :=
  ⟨by decide, update_suspended_noop sampleConsts pausedInput (initState [sampleNote]) (by decide)⟩

/-- C1 counterexample: the source has no latch around `onSongEnd`
(lines 103-106), so on every update frame in which the status is still
playing and the audio clock's ended flag is true the callback fires
again: here it fires on a first frame and then once more on the very
next frame, refuting "fires exactly once ... on the first update frame
in which the audio clock's ended flag is true". -/
theorem songEnd_fires_again_next_frame :
    (update sampleConsts endedInput (initState [sampleNote])).2 = [GameEvent.songEnd] ∧
    (update sampleConsts endedInput
        (update sampleConsts endedInput (initState [sampleNote])).1).2 = [GameEvent.songEnd] := by
  constructor <;> simp [update, endedInput]

/-- C1 (amended): `onSongEnd` fires on every update frame in which the
audio clock's ended flag is true while the status is playing — not only
the first such frame; the engine itself never latches, so it fires
exactly once per session only if the host leaves the playing status in
response.  On each such frame it is the only event: no onNoteHit or
onNoteMiss is emitted, and no note, ActiveSet or cursor state changes
(only the recorded clock time). -/
theorem update_songEnd_frame (C : Consts) (inp : FrameInput) (s : GameState)
    (hp : inp.gameStatus = GameStatus.playing) (ha : inp.audioPresent = true)
    (he : inp.ended = true) :
    update C inp s = ({ s with currentTime := inp.time }, [GameEvent.songEnd]) := by
  simp [update, hp, ha, he]

theorem update_songEnd_frame_witness :
    endedInput.gameStatus = GameStatus.playing ∧ endedInput.audioPresent = true ∧
    endedInput.ended = true ∧
    update sampleConsts endedInput (initState [sampleNote])
      = ({ initState [sampleNote] with currentTime := endedInput.time }, [GameEvent.songEnd]) :=
  ⟨rfl, rfl, rfl,
    update_songEnd_frame sampleConsts endedInput (initState [sampleNote]) rfl rfl rfl⟩

/-- C5: the projected depth of a note is exactly
`playerDepth - (note.time - t) * noteSpeed`; it equals the player-plane
depth precisely at `t = note.time`, and for a fixed note it is a
strictly monotone (increasing) function of the clock time, provided the
configured note speed is positive. -/
theorem projZ_linear_motion (C : Consts) (n : NoteData) (h : 0 < C.noteSpeed) :
    (∀ t : ℚ, projZ C n.time t = C.playerZ - (n.time - t) * C.noteSpeed) ∧
    projZ C n.time n.time = C.playerZ ∧
    StrictMono (projZ C n.time) := by
  refine ⟨fun t => rfl, by simp [projZ], fun a b hab => ?_⟩
  have hm : (n.time - b) * C.noteSpeed < (n.time - a) * C.noteSpeed :=
    mul_lt_mul_of_pos_right (by linarith) h
  unfold projZ
  linarith

theorem projZ_linear_motion_witness :
    0 < sampleConsts.noteSpeed ∧
    ((∀ t : ℚ, projZ sampleConsts sampleNote.time t
        = sampleConsts.playerZ - (sampleNote.time - t) * sampleConsts.noteSpeed) ∧
     projZ sampleConsts sampleNote.time sampleNote.time = sampleConsts.playerZ ∧
     StrictMono (projZ sampleConsts sampleNote.time)) :=
  ⟨by norm_num [sampleConsts],
   projZ_linear_motion sampleConsts sampleNote (by norm_num [sampleConsts])⟩

/-- C2 counterexample: the collision window of line 143 is
`PLAYER_Z - 2.0 < z < PLAYER_Z + 1.5`, and notes travel towards
increasing depth (third conjunct: a note sits at `playerZ + 8/5` at a
time *after* its scheduled time, i.e. past the player, on the miss
side).  A depth 8/5 ahead of the plane is eligible while the mirrored
depth 8/5 behind the plane is not, so the larger margin is ahead of the
plane, refuting "a larger margin behind the plane (past the player, on
the miss side) than ahead of it". -/
theorem window_margin_larger_ahead :
    inWindow sampleConsts (sampleConsts.playerZ - 8/5) = true ∧
    inWindow sampleConsts (sampleConsts.playerZ + 8/5) = false ∧
    projZ sampleConsts sampleNote.time (sampleNote.time + 8/5)
      = sampleConsts.playerZ + 8/5 := by
  refine ⟨?_, ?_, ?_⟩ <;> norm_num [inWindow, projZ, sampleConsts, sampleNote]

/-- C2 (amended): a note is eligible for hit testing only when its
current depth lies in the fixed band
`playerZ - 2.0 < z < playerZ + 1.5` around the player plane; the band is
asymmetric with the *larger* margin ahead of the plane (2.0, on the
approach side) and the *smaller* margin behind it (1.5, past the player,
on the miss side): every offset d with 1.5 ≤ d < 2.0 is inside the band
ahead of the plane and outside it behind the plane. -/
theorem window_band_gate (C : Consts) (H : HandsFrame) (t : ℚ) (n : NoteData) :
    (∀ z : ℚ, inWindow C z = true ↔ C.playerZ - 2 < z ∧ z < C.playerZ + 3/2) ∧
    (∀ d : ℚ, 3/2 ≤ d → d < 2 →
      inWindow C (C.playerZ - d) = true ∧ inWindow C (C.playerZ + d) = false) ∧
    (∀ acc, evalNote C H t n = some (Outcome.hitOut acc) →
      inWindow C (projZ C n.time t) = true) := by
  have hiff : ∀ z : ℚ, inWindow C z = true ↔ C.playerZ - 2 < z ∧ z < C.playerZ + 3/2 := by
    intro z
    simp [inWindow]
  refine ⟨hiff, fun d h1 h2 => ⟨?_, ?_⟩, fun acc h => ?_⟩
  · rw [hiff]; constructor <;> linarith
  · rw [← Bool.not_eq_true, hiff]; intro hc; linarith [hc.2]
  · simp only [evalNote] at h
    split at h
    · exact absurd h (by simp)
    · split at h
      · exact absurd h (by simp)
      · split at h
        · assumption
        · exact absurd h (by simp)

theorem window_band_gate_witness :
    (3 : ℚ)/2 ≤ 8/5 ∧ (8 : ℚ)/5 < 2 ∧
    inWindow sampleConsts (sampleConsts.playerZ - 8/5) = true ∧
    inWindow sampleConsts (sampleConsts.playerZ + 8/5) = false :=
  ⟨by norm_num, by norm_num,
   ((window_band_gate sampleConsts idleHands 0 sampleNote).2.1 (8/5)
      (by norm_num) (by norm_num)).1,
   ((window_band_gate sampleConsts idleHands 0 sampleNote).2.1 (8/5)
      (by norm_num) (by norm_num)).2⟩

/-- Numeric rank of a grade: BAD < GOOD < PERFECT. -/
def rank : HitAccuracy → ℕ
  | .bad => 0
  | .good => 1
  | .perfect => 2

/-- C6: for a fixed angle score that passes the direction gate
(angleScore > 0.1), a smaller timing error never yields a strictly
worse grade; the PERFECT region (timing < 0.5 and angle > 0.5) is
exactly where PERFECT is awarded and is contained in the GOOD region
(timing < 1.0 and angle > 0.2); and passing the gate but failing both
conditions still yields the grade BAD — a hit, not a miss. -/
theorem grade_monotone_nested (a : ℚ) (_hgate : 1/10 < a) :
    (∀ e1 e2 : ℚ, e1 ≤ e2 → rank (grade e2 a) ≤ rank (grade e1 a)) ∧
    (∀ e : ℚ, grade e a = HitAccuracy.perfect ↔ (e < 1/2 ∧ 1/2 < a)) ∧
    (∀ e : ℚ, e < 1/2 ∧ 1/2 < a → e < 1 ∧ 1/5 < a) ∧
    (∀ e : ℚ, ¬(e < 1/2 ∧ 1/2 < a) → ¬(e < 1 ∧ 1/5 < a) → grade e a = HitAccuracy.bad) := by
  have gP : ∀ e : ℚ, (e < 1/2 ∧ 1/2 < a) → grade e a = .perfect := by
    intro e he; unfold grade; rw [if_pos he]
  have gG : ∀ e : ℚ, ¬(e < 1/2 ∧ 1/2 < a) → (e < 1 ∧ 1/5 < a) → grade e a = .good := by
    intro e h1 h2; unfold grade; rw [if_neg h1, if_pos h2]
  have gB : ∀ e : ℚ, ¬(e < 1/2 ∧ 1/2 < a) → ¬(e < 1 ∧ 1/5 < a) → grade e a = .bad := by
    intro e h1 h2; unfold grade; rw [if_neg h1, if_neg h2]
  refine ⟨?_, ?_, ?_, gB⟩
  · intro e1 e2 hle
    by_cases hp2 : e2 < 1/2 ∧ 1/2 < a
    · have hp1 : e1 < 1/2 ∧ 1/2 < a := ⟨by linarith [hp2.1], hp2.2⟩
      rw [gP e1 hp1, gP e2 hp2]
    · by_cases hg2 : e2 < 1 ∧ 1/5 < a
      · have hg1 : e1 < 1 ∧ 1/5 < a := ⟨by linarith [hg2.1], hg2.2⟩
        rw [gG e2 hp2 hg2]
        by_cases hp1 : e1 < 1/2 ∧ 1/2 < a
        · rw [gP e1 hp1]; simp [rank]
        · rw [gG e1 hp1 hg1]
      · rw [gB e2 hp2 hg2]; simp [rank]
  · intro e
    constructor
    · intro h
      by_contra hc
      by_cases hg : e < 1 ∧ 1/5 < a
      · rw [gG e hc hg] at h; exact HitAccuracy.noConfusion h
      · rw [gB e hc hg] at h; exact HitAccuracy.noConfusion h
    · exact gP e
  · intro e he
    exact ⟨by linarith [he.1], by linarith [he.2]⟩

theorem grade_monotone_nested_witness :
    (1 : ℚ)/10 < 3/10 ∧
    ((∀ e1 e2 : ℚ, e1 ≤ e2 → rank (grade e2 (3/10)) ≤ rank (grade e1 (3/10))) ∧
     (∀ e : ℚ, grade e (3/10) = HitAccuracy.perfect ↔ (e < 1/2 ∧ 1/2 < (3 : ℚ)/10)) ∧
     (∀ e : ℚ, e < 1/2 ∧ 1/2 < (3 : ℚ)/10 → e < 1 ∧ 1/5 < (3 : ℚ)/10) ∧
     (∀ e : ℚ, ¬(e < 1/2 ∧ 1/2 < (3 : ℚ)/10) → ¬(e < 1 ∧ 1/5 < (3 : ℚ)/10) →
        grade e (3/10) = HitAccuracy.bad)) :=
  ⟨by norm_num, grade_monotone_nested (3/10) (by norm_num)⟩

/-- Helper for C10: a successful table lookup pins both indices inside
the tables. -/
theorem notePosition_isSome_iff (C : Consts) (n : NoteData) (z : ℚ) :
    (notePosition C n z).isSome
      ↔ n.lineIndex < C.laneX.length ∧ n.lineLayer < C.layerY.length := by
  unfold notePosition
  rcases h1 : C.laneX[n.lineIndex]? with _ | x <;>
    rcases h2 : C.layerY[n.lineLayer]? with _ | y <;>
      simp only [h1, h2, Option.isSome_some, Option.isSome_none]
  · rw [List.getElem?_eq_none_iff] at h1 h2
    simp; omega
  · rw [List.getElem?_eq_none_iff] at h1
    simp; omega
  · rw [List.getElem?_eq_none_iff] at h2
    obtain ⟨hl, -⟩ := List.getElem?_eq_some.mp h1
    simp; omega
  · obtain ⟨hl, -⟩ := List.getElem?_eq_some.mp h1
    obtain ⟨hl2, -⟩ := List.getElem?_eq_some.mp h2
    simp [hl, hl2]

/-- C10: the collision engine (GameScene.tsx lines 148-152) and the note
renderer (Note.tsx lines 182-188) index LANE_X_POSITIONS and
LAYER_Y_POSITIONS with `lineIndex` / `lineLayer` without any bounds
check: the embedded lookups are defined exactly when both indices are in
range, and when every chart index is in range the per-note collision
evaluation is always well-defined. -/
theorem unchecked_lane_layer_indexing (C : Consts) (n : NoteData) (z : ℚ) :
    ((notePosition C n z).isSome
      ↔ n.lineIndex < C.laneX.length ∧ n.lineLayer < C.layerY.length) ∧
    ((renderPosition C n z).isSome
      ↔ n.lineIndex < C.laneX.length ∧ n.lineLayer < C.layerY.length) ∧
    (∀ H t, n.lineIndex < C.laneX.length → n.lineLayer < C.layerY.length →
      (evalNote C H t n).isSome) := by
  refine ⟨notePosition_isSome_iff C n z, ?_, ?_⟩
  · unfold renderPosition
    rcases h1 : C.laneX[n.lineIndex]? with _ | x <;>
      rcases h2 : C.layerY[n.lineLayer]? with _ | y <;>
        simp only [h1, h2, Option.isSome_some, Option.isSome_none]
    · rw [List.getElem?_eq_none_iff] at h1 h2
      simp; omega
    · rw [List.getElem?_eq_none_iff] at h1
      simp; omega
    · rw [List.getElem?_eq_none_iff] at h2
      obtain ⟨hl, -⟩ := List.getElem?_eq_some.mp h1
      simp; omega
    · obtain ⟨hl, -⟩ := List.getElem?_eq_some.mp h1
      obtain ⟨hl2, -⟩ := List.getElem?_eq_some.mp h2
      simp [hl, hl2]
  · intro H t h1 h2
    have hnp : (notePosition C n (projZ C n.time t)).isSome :=
      (notePosition_isSome_iff C n (projZ C n.time t)).mpr ⟨h1, h2⟩
    obtain ⟨np, hnp⟩ := Option.isSome_iff_exists.mp hnp
    simp only [evalNote]
    repeat' split <;> try simp_all

theorem unchecked_lane_layer_indexing_witness :
    ((notePosition sampleConsts sampleNote 0).isSome
      ↔ sampleNote.lineIndex < sampleConsts.laneX.length ∧
        sampleNote.lineLayer < sampleConsts.layerY.length) ∧
    ((renderPosition sampleConsts sampleNote 0).isSome
      ↔ sampleNote.lineIndex < sampleConsts.laneX.length ∧
        sampleNote.lineLayer < sampleConsts.layerY.length) ∧
    (∀ H t, sampleNote.lineIndex < sampleConsts.laneX.length →
      sampleNote.lineLayer < sampleConsts.layerY.length →
      (evalNote sampleConsts H t sampleNote).isSome) :=
  unchecked_lane_layer_indexing sampleConsts sampleNote 0

/-- Helper for C4: full characterisation of one run of the spawn loop
over the pending suffix of a time-sorted chart.  The cursor only moves
forward, by at most the number of pending notes; the active list grows
exactly by the consecutive block of cursor positions `idx, idx+1, ...`
in chart order; and a pending note is promoted on this run precisely
when it is due (`note.time - spawnAheadTime ≤ t`). -/
theorem spawnRec_spec (sat t : ℚ) (rest : List NoteData) (active : List ℕ) (idx : ℕ)
    (hs : rest.Pairwise (fun a b => a.time ≤ b.time)) :
    idx ≤ (spawnRec sat t rest active idx).2 ∧
    (spawnRec sat t rest active idx).2 ≤ idx + rest.length ∧
    (spawnRec sat t rest active idx).1
      = active ++ List.range' idx ((spawnRec sat t rest active idx).2 - idx) ∧
    ∀ k (hk : k < rest.length),
      ((rest.get ⟨k, hk⟩).time - sat ≤ t ↔ idx + k < (spawnRec sat t rest active idx).2) := by
  induction rest generalizing active idx with
  | nil => simp [spawnRec]
  | cons n rest ih =>
    rw [List.pairwise_cons] at hs
    by_cases hdue : n.time - sat ≤ t
    · have hr : spawnRec sat t (n :: rest) active idx
          = spawnRec sat t rest (active ++ [idx]) (idx + 1) := by
        simp [spawnRec, hdue]
      obtain ⟨ih1, ih2, ih3, ih4⟩ := ih (active ++ [idx]) (idx + 1) hs.2
      rw [hr]
      refine ⟨by omega, by simp only [List.length_cons]; omega, ?_, ?_⟩
      · rw [ih3, List.append_assoc]
        have he : (spawnRec sat t rest (active ++ [idx]) (idx + 1)).2 - idx
            = ((spawnRec sat t rest (active ++ [idx]) (idx + 1)).2 - (idx + 1)) + 1 := by
          omega
        rw [he, List.range'_succ]
        rfl
      · intro k hk
        cases k with
        | zero =>
          have hg : (n :: rest).get ⟨0, hk⟩ = n := rfl
          rw [hg]
          exact ⟨fun _ => by omega, fun _ => hdue⟩
        | succ k =>
          have hk2 : k < rest.length := by
            simpa using hk
          have hiff := ih4 k hk2
          have hg : (n :: rest).get ⟨k + 1, hk⟩ = rest.get ⟨k, hk2⟩ := rfl
          rw [hg, hiff, show idx + (k + 1) = idx + 1 + k from by omega]
    · have hr : spawnRec sat t (n :: rest) active idx = (active, idx) := by
        simp [spawnRec, hdue]
      rw [hr]
      refine ⟨Nat.le_refl idx, by simp only [List.length_cons]; omega, by simp, ?_⟩
      intro k hk
      constructor
      · intro hdk
        exfalso
        apply hdue
        cases k with
        | zero => simpa using hdk
        | succ k =>
          have hk2 : k < rest.length := by
            simpa using hk
          have hmem : rest.get ⟨k, hk2⟩ ∈ rest := List.get_mem _ _ _
          have hle : n.time ≤ (rest.get ⟨k, hk2⟩).time := hs.1 _ hmem
          have hg : (n :: rest).get ⟨k + 1, hk⟩ = rest.get ⟨k, hk2⟩ := rfl
          rw [hg] at hdk
          linarith
      · intro hc
        exact absurd hc (by omega)

/-- C4: on a time-ordered chart the spawn loop (lines 110-120) promotes
into the ActiveSet exactly the pending notes (cursor position onwards)
that are due, `note.time - spawnAheadTime ≤ t`: the new activations are
the consecutive block of chart indices from the old cursor to the new
one, appended to the active list in chart order — so note k+1 is never
activated before note k — the cursor never moves backwards — so no note
is ever activated twice — and a pending note is promoted iff it is due,
the scan stopping at the first note not yet due. -/
theorem scheduler_promotes_exactly_due (C : Consts) (t : ℚ) (notes : List NoteData)
    (active : List ℕ) (idx : ℕ)
    (hs : notes.Pairwise (fun a b => a.time ≤ b.time)) (hidx : idx ≤ notes.length) :
    idx ≤ (spawnLoop (spawnAheadTime C) t notes active idx).2 ∧
    (spawnLoop (spawnAheadTime C) t notes active idx).2 ≤ notes.length ∧
    (spawnLoop (spawnAheadTime C) t notes active idx).1
      = active ++ List.range' idx
          ((spawnLoop (spawnAheadTime C) t notes active idx).2 - idx) ∧
    ∀ j (hj : j < notes.length), idx ≤ j →
      ((notes.get ⟨j, hj⟩).time - spawnAheadTime C ≤ t
        ↔ j < (spawnLoop (spawnAheadTime C) t notes active idx).2) := by
  obtain ⟨h1, h2, h3, h4⟩ :=
    spawnRec_spec (spawnAheadTime C) t (notes.drop idx) active idx hs.drop
  have hl : (notes.drop idx).length = notes.length - idx := List.length_drop idx notes
  refine ⟨h1, by unfold spawnLoop; omega, h3, ?_⟩
  intro j hj hij
  have hk : j - idx < (notes.drop idx).length := by omega
  have hiff := h4 (j - idx) hk
  have hidx2 : idx + (j - idx) = j := by omega
  have e1 := List.getElem?_drop notes idx (j - idx)
  rw [hidx2] at e1
  rw [List.getElem?_eq_getElem hk, List.getElem?_eq_getElem hj] at e1
  have hget : (notes.drop idx).get ⟨j - idx, hk⟩ = notes.get ⟨j, hj⟩ := by
    rw [List.get_eq_getElem, List.get_eq_getElem]
    exact Option.some.inj e1
  rw [hget, hidx2] at hiff
  exact hiff

theorem scheduler_promotes_exactly_due_witness :
    ([sampleNote, { sampleNote with id := 8, time := 50 }].Pairwise
        (fun a b => a.time ≤ b.time)) ∧ 0 ≤ 2 ∧
    (spawnLoop (spawnAheadTime sampleConsts) 5
        [sampleNote, { sampleNote with id := 8, time := 50 }] [] 0).2 = 1 ∧
    (spawnLoop (spawnAheadTime sampleConsts) 5
        [sampleNote, { sampleNote with id := 8, time := 50 }] [] 0).1 = [0] := by
  have hs : ([sampleNote, { sampleNote with id := 8, time := 50 }].Pairwise
      (fun a b => a.time ≤ b.time)) := by
    norm_num [List.pairwise_cons, sampleNote]
  have hrun : spawnLoop (spawnAheadTime sampleConsts) 5
      [sampleNote, { sampleNote with id := 8, time := 50 }] [] 0 = ([0], 1) := by
    norm_num [spawnLoop, spawnRec, spawnAheadTime, sampleConsts, sampleNote]
  have h := scheduler_promotes_exactly_due sampleConsts 5
    [sampleNote, { sampleNote with id := 8, time := 50 }] [] 0 hs (by norm_num)
  exact ⟨hs, by norm_num, by rw [hrun], by rw [hrun]⟩

/-- A note that the per-note evaluation resolves (miss or hit) was not
terminal on entry: line 127 skips any note already hit or missed. -/
theorem evalNote_resolves_nonterminal (C : Consts) (H : HandsFrame) (t : ℚ)
    (n : NoteData) (o : Outcome) (h : evalNote C H t n = some o) (ho : o ≠ Outcome.skip) :
    n.hit = false ∧ n.missed = false := by
  by_cases hterm : (n.hit || n.missed) = true
  · exfalso
    apply ho
    unfold evalNote at h
    rw [if_pos hterm] at h
    exact (Option.some.inj h).symm
  · rw [Bool.or_eq_true] at hterm
    push_neg at hterm
    exact ⟨Bool.not_eq_true _ |>.mp hterm.1, Bool.not_eq_true _ |>.mp hterm.2⟩

/-- The per-note evaluation resolves a note as missed exactly when the
note is not yet terminal and its current depth has advanced past the
miss threshold — independently of the hand state, so the miss check has
priority over every collision consideration. -/
theorem evalNote_missOut_iff (C : Consts) (H : HandsFrame) (t : ℚ) (n : NoteData) :
    evalNote C H t n = some Outcome.missOut
      ↔ n.hit = false ∧ n.missed = false ∧ projZ C n.time t > C.missZ := by
  constructor
  · intro h
    obtain ⟨h1, h2⟩ :=
      evalNote_resolves_nonterminal C H t n _ h (fun hc => Outcome.noConfusion hc)
    refine ⟨h1, h2, ?_⟩
    by_contra hz
    unfold evalNote at h
    rw [if_neg (by simp [h1, h2]), if_neg hz] at h
    split at h
    · split at h
      · exact Outcome.noConfusion (Option.some.inj h)
      · split at h
        · exact Option.noConfusion h
        · split at h
          · split at h
            · exact Outcome.noConfusion (Option.some.inj h)
            · split at h
              · exact Outcome.noConfusion (Option.some.inj h)
              · exact Outcome.noConfusion (Option.some.inj h)
          · exact Outcome.noConfusion (Option.some.inj h)
    · exact Outcome.noConfusion (Option.some.inj h)
  · intro ⟨h1, h2, h3⟩
    unfold evalNote
    rw [if_neg (by simp [h1, h2]), if_pos h3]

/-- One iteration of the collision loop on a note the evaluation skips:
nothing changes — no mutation, no removal, no event — and the loop moves
on, leaving the note active for future frames. -/
theorem collideLoop_skip_step (C : Consts) (H : HandsFrame) (t : ℚ)
    (i : ℕ) (notes : List NoteData) (active : List ℕ) (j : ℕ) (note : NoteData)
    (hj : active[i]? = some j) (hn : notes[j]? = some note)
    (he : evalNote C H t note = some Outcome.skip) :
    collideLoop C H t (i + 1) notes active = collideLoop C H t i notes active := by
  simp only [collideLoop, hj, hn, he]

/-- One iteration of the collision loop on a note whose depth has passed
the miss threshold: the note is marked missed in place, it is spliced
out of the active list, and a miss event is emitted before the events of
the remaining iterations. -/
theorem collideLoop_miss_step (C : Consts) (H : HandsFrame) (t : ℚ)
    (i : ℕ) (notes : List NoteData) (active : List ℕ) (j : ℕ) (note : NoteData)
    (hj : active[i]? = some j) (hn : notes[j]? = some note)
    (he : evalNote C H t note = some Outcome.missOut) :
    collideLoop C H t (i + 1) notes active
      = ((collideLoop C H t i (notes.set j (markMissed note)) (active.eraseIdx i)).1,
         (collideLoop C H t i (notes.set j (markMissed note)) (active.eraseIdx i)).2.1,
         GameEvent.noteMiss note.id ::
           (collideLoop C H t i (notes.set j (markMissed note)) (active.eraseIdx i)).2.2) := by
  simp only [collideLoop, hj, hn, he]

/-- One iteration of the collision loop on a note the evaluation
resolves as hit: the note is marked hit in place (recording hit time and
accuracy), spliced out of the active list, and a hit event is emitted
before the events of the remaining iterations. -/
theorem collideLoop_hit_step (C : Consts) (H : HandsFrame) (t : ℚ)
    (i : ℕ) (notes : List NoteData) (active : List ℕ) (j : ℕ) (note : NoteData)
    (acc : HitAccuracy)
    (hj : active[i]? = some j) (hn : notes[j]? = some note)
    (he : evalNote C H t note = some (Outcome.hitOut acc)) :
    collideLoop C H t (i + 1) notes active
      = ((collideLoop C H t i (notes.set j (markHit note t acc)) (active.eraseIdx i)).1,
         (collideLoop C H t i (notes.set j (markHit note t acc)) (active.eraseIdx i)).2.1,
         GameEvent.noteHit note.id acc ::
           (collideLoop C H t i (notes.set j (markHit note t acc)) (active.eraseIdx i)).2.2) := by
  simp only [collideLoop, hj, hn, he]

/-- Terminal notes are frozen: the collision loop never touches a note
that is already hit or missed (line 127 `continue`). -/
theorem collideLoop_frozen (C : Consts) (H : HandsFrame) (t : ℚ) :
    ∀ (i : ℕ) (notes : List NoteData) (active : List ℕ) (j : ℕ) (n : NoteData),
      notes[j]? = some n → (n.hit = true ∨ n.missed = true) →
      (collideLoop C H t i notes active).1[j]? = some n := by
  intro i
  induction i with
  | zero => intro notes active j n hj _; simpa [collideLoop] using hj
  | succ i ih =>
    intro notes active j n hj hterm
    rcases ha : active[i]? with _ | j0
    · simp only [collideLoop, ha]
      exact ih notes active j n hj hterm
    · rcases hn : notes[j0]? with _ | note0
      · simp only [collideLoop, ha, hn]
        exact ih notes active j n hj hterm
      · rcases he : evalNote C H t note0 with _ | o
        · simp only [collideLoop, ha, hn, he]
          exact ih notes active j n hj hterm
        · have hne : o ≠ Outcome.skip → j0 ≠ j := by
            intro ho hjj
            subst hjj
            obtain ⟨hh, hm⟩ := evalNote_resolves_nonterminal C H t note0 o he ho
            rw [hj] at hn
            cases Option.some.inj hn
            rcases hterm with h1 | h1
            · rw [hh] at h1; exact Bool.noConfusion h1
            · rw [hm] at h1; exact Bool.noConfusion h1
          rcases o with _ | _ | acc
          · simp only [collideLoop, ha, hn, he]
            exact ih notes active j n hj hterm
          · rw [collideLoop_miss_step C H t i notes active j0 note0 ha hn he]
            have hjj : j0 ≠ j := hne (fun hc => Outcome.noConfusion hc)
            exact ih _ _ j n (by rw [List.getElem?_set_ne hjj]; exact hj) hterm
          · rw [collideLoop_hit_step C H t i notes active j0 note0 acc ha hn he]
            have hjj : j0 ≠ j := hne (fun hc => Outcome.noConfusion hc)
            exact ih _ _ j n (by rw [List.getElem?_set_ne hjj]; exact hj) hterm

/-- If a note comes out of the collision loop marked missed, then either
it was already missed going in, or its current depth this frame is past
the miss threshold: the loop never invents an early miss. -/
theorem collideLoop_missed_reason (C : Consts) (H : HandsFrame) (t : ℚ) :
    ∀ (i : ℕ) (notes : List NoteData) (active : List ℕ) (j : ℕ) (n n2 : NoteData),
      notes[j]? = some n → (collideLoop C H t i notes active).1[j]? = some n2 →
      n2.missed = true → n.missed = true ∨ projZ C n.time t > C.missZ := by
  intro i
  induction i with
  | zero =>
    intro notes active j n n2 hj hr hm
    simp only [collideLoop] at hr
    rw [hj] at hr
    cases Option.some.inj hr
    exact Or.inl hm
  | succ i ih =>
    intro notes active j n n2 hj hr hm
    rcases ha : active[i]? with _ | j0
    · simp only [collideLoop, ha] at hr
      exact ih notes active j n n2 hj hr hm
    · rcases hn : notes[j0]? with _ | note0
      · simp only [collideLoop, ha, hn] at hr
        exact ih notes active j n n2 hj hr hm
      · rcases he : evalNote C H t note0 with _ | o
        · simp only [collideLoop, ha, hn, he] at hr
          exact ih notes active j n n2 hj hr hm
        · rcases o with _ | _ | acc
          · simp only [collideLoop, ha, hn, he] at hr
            exact ih notes active j n n2 hj hr hm
          · by_cases hjj : j0 = j
            · subst hjj
              rw [hj] at hn
              cases Option.some.inj hn
              exact Or.inr ((evalNote_missOut_iff C H t n).mp he).2.2
            · rw [collideLoop_miss_step C H t i notes active j0 note0 ha hn he] at hr
              exact ih _ _ j n n2 (by rw [List.getElem?_set_ne hjj]; exact hj) hr hm
          · by_cases hjj : j0 = j
            · subst hjj
              rw [hj] at hn
              cases Option.some.inj hn
              have hlen : j0 < notes.length := by
                obtain ⟨hl, -⟩ := List.getElem?_eq_some.mp hj
                exact hl
              rw [collideLoop_hit_step C H t i notes active j0 n acc ha hj he] at hr
              have hbase : (notes.set j0 (markHit n t acc))[j0]? = some (markHit n t acc) :=
                List.getElem?_set_self hlen
              rcases ih _ _ j0 (markHit n t acc) n2 hbase hr hm with h1 | h1
              · exact Or.inl h1
              · exact Or.inr h1
            · rw [collideLoop_hit_step C H t i notes active j0 note0 acc ha hn he] at hr
              exact ih _ _ j n n2 (by rw [List.getElem?_set_ne hjj]; exact hj) hr hm

/-- The per-note runtime-state invariant of spec section 3: a note is
never both hit and missed, and `hitTime` / `accuracy` are present
exactly when the note is hit. -/
def noteInv (n : NoteData) : Prop :=
  ¬(n.hit = true ∧ n.missed = true) ∧
  (n.hitTime.isSome ↔ n.hit = true) ∧
  (n.accuracy.isSome ↔ n.hit = true)

/-- The collision loop preserves the per-note invariant on every note of
the chart. -/
theorem collideLoop_preserves_inv (C : Consts) (H : HandsFrame) (t : ℚ) :
    ∀ (i : ℕ) (notes : List NoteData) (active : List ℕ),
      (∀ n ∈ notes, noteInv n) →
      ∀ n ∈ (collideLoop C H t i notes active).1, noteInv n := by
  intro i
  induction i with
  | zero => intro notes active hinv; simpa [collideLoop] using hinv
  | succ i ih =>
    intro notes active hinv
    rcases ha : active[i]? with _ | j0
    · simp only [collideLoop, ha]
      exact ih notes active hinv
    · rcases hn : notes[j0]? with _ | note0
      · simp only [collideLoop, ha, hn]
        exact ih notes active hinv
      · rcases he : evalNote C H t note0 with _ | o
        · simp only [collideLoop, ha, hn, he]
          exact ih notes active hinv
        · rcases o with _ | _ | acc
          · simp only [collideLoop, ha, hn, he]
            exact ih notes active hinv
          · rw [collideLoop_miss_step C H t i notes active j0 note0 ha hn he]
            apply ih
            intro n hn2
            rcases List.mem_or_eq_of_mem_set hn2 with hmem | heq
            · exact hinv n hmem
            · subst heq
              obtain ⟨hh, hm⟩ := evalNote_resolves_nonterminal C H t note0 _ he
                (fun hc => Outcome.noConfusion hc)
              obtain ⟨-, e2, e3⟩ := hinv note0 (List.getElem?_mem hn)
              refine ⟨by simp [markMissed, hh], ?_, ?_⟩
              · simpa [markMissed, hh] using e2
              · simpa [markMissed, hh] using e3
          · rw [collideLoop_hit_step C H t i notes active j0 note0 acc ha hn he]
            apply ih
            intro n hn2
            rcases List.mem_or_eq_of_mem_set hn2 with hmem | heq
            · exact hinv n hmem
            · subst heq
              obtain ⟨hh, hm⟩ := evalNote_resolves_nonterminal C H t note0 _ he
                (fun hc => Outcome.noConfusion hc)
              exact ⟨by simp [markHit, hm], by simp [markHit], by simp [markHit]⟩

/-- C3: every note of a freshly installed chart satisfies the runtime
invariant (never hit-and-missed, hitTime/accuracy present iff hit); one
update step preserves the invariant on every note; and any note that is
already terminal (hit or missed) is left byte-for-byte unchanged by the
update step, so terminal states are immutable at every point of the
simulation. -/
theorem note_terminal_invariants (C : Consts) (inp : FrameInput) (s : GameState)
    (chart : List NoteData) (hinv : ∀ n ∈ s.notes, noteInv n) :
    (∀ n ∈ (initState chart).notes, noteInv n) ∧
    (∀ n ∈ (update C inp s).1.notes, noteInv n) ∧
    (∀ (j : ℕ) (n : NoteData), s.notes[j]? = some n →
      n.hit = true ∨ n.missed = true → (update C inp s).1.notes[j]? = some n) := by
  refine ⟨?_, ?_, ?_⟩
  · intro n hn
    rw [initState] at hn
    obtain ⟨m, -, rfl⟩ := List.mem_map.mp hn
    exact ⟨by simp [resetNote], by simp [resetNote], by simp [resetNote]⟩
  · by_cases hsusp : inp.gameStatus ≠ GameStatus.playing ∨ inp.audioPresent = false
    · have hupd : update C inp s = (s, []) := by
        unfold update; rw [if_pos hsusp]
      rw [hupd]
      exact hinv
    · by_cases hend : inp.ended = true
      · have hupd : update C inp s
            = ({ s with currentTime := inp.time }, [GameEvent.songEnd]) := by
          unfold update; rw [if_neg hsusp, if_pos hend]
        rw [hupd]
        exact hinv
      · have hupd : (update C inp s).1.notes
            = (collideLoop C inp.hands inp.time
                (spawnLoop (spawnAheadTime C) inp.time s.notes s.active s.nextNoteIndex).1.length
                s.notes
                (spawnLoop (spawnAheadTime C) inp.time s.notes s.active s.nextNoteIndex).1).1 := by
          unfold update; rw [if_neg hsusp, if_neg hend]
        rw [hupd]
        exact collideLoop_preserves_inv C inp.hands inp.time _ _ _ hinv
  · intro j n hj hterm
    by_cases hsusp : inp.gameStatus ≠ GameStatus.playing ∨ inp.audioPresent = false
    · have hupd : update C inp s = (s, []) := by
        unfold update; rw [if_pos hsusp]
      rw [hupd]
      exact hj
    · by_cases hend : inp.ended = true
      · have hupd : update C inp s
            = ({ s with currentTime := inp.time }, [GameEvent.songEnd]) := by
          unfold update; rw [if_neg hsusp, if_pos hend]
        rw [hupd]
        exact hj
      · have hupd : (update C inp s).1.notes
            = (collideLoop C inp.hands inp.time
                (spawnLoop (spawnAheadTime C) inp.time s.notes s.active s.nextNoteIndex).1.length
                s.notes
                (spawnLoop (spawnAheadTime C) inp.time s.notes s.active s.nextNoteIndex).1).1 := by
          unfold update; rw [if_neg hsusp, if_neg hend]
        rw [hupd]
        exact collideLoop_frozen C inp.hands inp.time _ _ _ j n hj hterm

theorem note_terminal_invariants_witness :
    (∀ n ∈ (initState [sampleNote]).notes, noteInv n) ∧
    ((∀ n ∈ (initState [sampleNote]).notes, noteInv n) ∧
     (∀ n ∈ (update sampleConsts playingInput (initState [sampleNote])).1.notes, noteInv n) ∧
     (∀ (j : ℕ) (n : NoteData), (initState [sampleNote]).notes[j]? = some n →
       n.hit = true ∨ n.missed = true →
       (update sampleConsts playingInput (initState [sampleNote])).1.notes[j]? = some n)) :=
  ⟨by simp [initState, resetNote, noteInv, sampleNote],
   note_terminal_invariants sampleConsts playingInput (initState [sampleNote]) [sampleNote]
     (by simp [initState, resetNote, noteInv, sampleNote])⟩

/-- C9: a note is resolved as missed exactly when it is not yet terminal
and its current depth has passed the miss threshold — never earlier, and
independently of every hand/collision condition, so within a frame the
miss check has priority over the collision check; on a miss the note is
marked missed in place, a miss event is emitted and the note is spliced
out of the active list; and globally, any note coming out of the
collision loop missed was either already missed or past the threshold
this frame. -/
theorem miss_threshold_behavior (C : Consts) (H : HandsFrame) (t : ℚ) :
    (∀ n : NoteData, evalNote C H t n = some Outcome.missOut
      ↔ n.hit = false ∧ n.missed = false ∧ projZ C n.time t > C.missZ) ∧
    (∀ (i : ℕ) (notes : List NoteData) (active : List ℕ) (j : ℕ) (note : NoteData),
      active[i]? = some j → notes[j]? = some note →
      evalNote C H t note = some Outcome.missOut →
      collideLoop C H t (i + 1) notes active
        = ((collideLoop C H t i (notes.set j (markMissed note)) (active.eraseIdx i)).1,
           (collideLoop C H t i (notes.set j (markMissed note)) (active.eraseIdx i)).2.1,
           GameEvent.noteMiss note.id ::
             (collideLoop C H t i (notes.set j (markMissed note)) (active.eraseIdx i)).2.2)) ∧
    (∀ (i : ℕ) (notes : List NoteData) (active : List ℕ) (j : ℕ) (n n2 : NoteData),
      notes[j]? = some n → (collideLoop C H t i notes active).1[j]? = some n2 →
      n2.missed = true → n.missed = true ∨ projZ C n.time t > C.missZ) :=
  ⟨evalNote_missOut_iff C H t,
   fun i notes active j note hj hn he =>
     collideLoop_miss_step C H t i notes active j note hj hn he,
   collideLoop_missed_reason C H t⟩

theorem miss_threshold_behavior_witness :
    evalNote sampleConsts idleHands 5 sampleNote = some Outcome.missOut :=
  ((miss_threshold_behavior sampleConsts idleHands 5).1 sampleNote).mpr
    ⟨rfl, rfl, by norm_num [projZ, sampleConsts, sampleNote]⟩

/-- C8: for an active non-terminal note whose depth has not passed the
miss threshold, every soft gate failure — untracked hand, distance at or
beyond the 1.2 radius, swing speed below the 0.5 minimum, angle score at
or below the 0.1 threshold — produces a skip: no event, no field
mutation, and (last conjunct) the collision loop leaves both the chart
and the active list untouched, so the note remains pending for future
frames.  The fifth conjunct shows the only outcomes below the miss
threshold are skip or hit: only crossing the miss depth forces a
terminal non-hit outcome. -/
theorem soft_gates_defer (C : Consts) (H : HandsFrame) (t : ℚ) (n : NoteData)
    (hhit : n.hit = false) (hmiss : n.missed = false)
    (hz : ¬ projZ C n.time t > C.missZ) :
    (handPosOf H n.type = none → evalNote C H t n = some Outcome.skip) ∧
    (∀ hp np, handPosOf H n.type = some hp →
      notePosition C n (projZ C n.time t) = some np →
      ¬ (Vec3.sub hp np).norm2 < (6/5) * (6/5) →
      evalNote C H t n = some Outcome.skip) ∧
    ((notePosition C n (projZ C n.time t)).isSome →
      (handVelOf H n.type).norm2 < (1/2) * (1/2) →
      evalNote C H t n = some Outcome.skip) ∧
    ((notePosition C n (projZ C n.time t)).isSome →
      angleScoreOf H n.type n.cutDirection ≤ 1/10 →
      evalNote C H t n = some Outcome.skip) ∧
    (∀ o, evalNote C H t n = some o →
      o = Outcome.skip ∨ ∃ acc, o = Outcome.hitOut acc) ∧
    (∀ (i : ℕ) (notes : List NoteData) (active : List ℕ) (j : ℕ),
      active[i]? = some j → notes[j]? = some n →
      evalNote C H t n = some Outcome.skip →
      collideLoop C H t (i + 1) notes active = collideLoop C H t i notes active) := by
  have base : evalNote C H t n
      = if inWindow C (projZ C n.time t) then
          match handPosOf H n.type with
          | none => some Outcome.skip
          | some hp =>
            match notePosition C n (projZ C n.time t) with
            | none => none
            | some np =>
              if (Vec3.sub hp np).norm2 < (6/5) * (6/5) then
                if (handVelOf H n.type).norm2 < (1/2) * (1/2) then some Outcome.skip
                else if angleScoreOf H n.type n.cutDirection > 1/10 then
                  some (Outcome.hitOut (grade |projZ C n.time t - C.playerZ|
                    (angleScoreOf H n.type n.cutDirection)))
                else some Outcome.skip
              else some Outcome.skip
        else some Outcome.skip := by
    unfold evalNote
    rw [if_neg (by simp [hhit, hmiss]), if_neg hz]
  refine ⟨?_, ?_, ?_, ?_, ?_, ?_⟩
  · intro hpos
    rw [base]
    by_cases hw : inWindow C (projZ C n.time t) = true
    · rw [if_pos hw]
      simp only [hpos]
    · rw [if_neg hw]
  · intro hp np hpos hnp hdist
    rw [base]
    by_cases hw : inWindow C (projZ C n.time t) = true
    · rw [if_pos hw]
      simp only [hpos, hnp]
      rw [if_neg hdist]
    · rw [if_neg hw]
  · intro hnps hspeed
    obtain ⟨np, hnp⟩ := Option.isSome_iff_exists.mp hnps
    rw [base]
    by_cases hw : inWindow C (projZ C n.time t) = true
    · rw [if_pos hw]
      rcases hpos : handPosOf H n.type with _ | hp
      · simp only [hpos]
      · simp only [hpos, hnp]
        by_cases hdist : (Vec3.sub hp np).norm2 < (6/5) * (6/5)
        · rw [if_pos hdist, if_pos hspeed]
        · rw [if_neg hdist]
    · rw [if_neg hw]
  · intro hnps hang
    obtain ⟨np, hnp⟩ := Option.isSome_iff_exists.mp hnps
    rw [base]
    by_cases hw : inWindow C (projZ C n.time t) = true
    · rw [if_pos hw]
      rcases hpos : handPosOf H n.type with _ | hp
      · simp only [hpos]
      · simp only [hpos, hnp]
        by_cases hdist : (Vec3.sub hp np).norm2 < (6/5) * (6/5)
        · rw [if_pos hdist]
          by_cases hspeed : (handVelOf H n.type).norm2 < (1/2) * (1/2)
          · rw [if_pos hspeed]
          · rw [if_neg hspeed, if_neg (not_lt.mpr hang)]
        · rw [if_neg hdist]
    · rw [if_neg hw]
  · intro o ho
    rw [base] at ho
    by_cases hw : inWindow C (projZ C n.time t) = true
    · rw [if_pos hw] at ho
      rcases hpos : handPosOf H n.type with _ | hp
      · simp only [hpos] at ho
        exact Or.inl (Option.some.inj ho).symm
      · simp only [hpos] at ho
        rcases hnp : notePosition C n (projZ C n.time t) with _ | np
        · simp only [hnp] at ho
          exact Option.noConfusion ho
        · simp only [hnp] at ho
          split at ho
          · split at ho
            · exact Or.inl (Option.some.inj ho).symm
            · split at ho
              · exact Or.inr ⟨_, (Option.some.inj ho).symm⟩
              · exact Or.inl (Option.some.inj ho).symm
          · exact Or.inl (Option.some.inj ho).symm
    · rw [if_neg hw] at ho
      exact Or.inl (Option.some.inj ho).symm
  · intro i notes active j hj hn he
    exact collideLoop_skip_step C H t i notes active j n hj hn he

theorem soft_gates_defer_witness :
    (sampleNote.hit = false ∧ sampleNote.missed = false ∧
      ¬ projZ sampleConsts sampleNote.time 2 > sampleConsts.missZ) ∧
    evalNote sampleConsts idleHands 2 sampleNote = some Outcome.skip :=
  ⟨⟨rfl, rfl, by norm_num [projZ, sampleConsts, sampleNote]⟩,
   (soft_gates_defer sampleConsts idleHands 2 sampleNote rfl rfl
      (by norm_num [projZ, sampleConsts, sampleNote])).1 rfl⟩

end TempoStrike
